import Mathlib

/-!
Verification of the launcher core in `elisp/exec.cc` of `rules_elisp`.

The C++ source is embedded shallowly: pure computations become Lean
functions, the `absl::Status` / `StatusOr` error channel becomes
`Except ErrStatus`, `std::abort` on an invariant violation becomes
`Option.none`, and external effects (the runfiles mapping, directory
listings, temporary-file creation, time formatting) become explicit
function parameters of the embedded operations.
-/

namespace PhstRulesElisp

/-- Status codes used by `exec.cc` (`absl::Status`).  `failedPrecondition`
carries the list of candidate directories named in the message built by
`GetSharedDir`; `osError` carries the errno-style code. -/
inductive ErrStatus where
  | notFound
  | failedPrecondition (candidates : List String)
  | osError (code : Nat)
  | other (msg : String)
deriving DecidableEq, Repr

/-- The `enum class Mode` from `elisp/exec.h`. -/
inductive Mode where
  | kDirect
  | kWrap
deriving DecidableEq, Repr

/-! ## Environment maps (`Executor::BuildEnv`)

`Environment` is `absl::flat_hash_map<std::string, std::string>` in the
source.  A hash map is modelled as an association list in which each key
occurs at most once; `envInsert` mirrors `flat_hash_map::insert`, which
keeps the existing mapping when the key is already present. -/

/-- A name→value environment map, modelled as an association list. -/
abbrev Environment := List (String × String)

/-- Whether the map already contains the key (`flat_hash_map::contains`). -/
def envContains (m : Environment) (k : String) : Bool :=
  m.any (fun p => p.1 == k)

/-- Models `flat_hash_map::insert` of a single pair: a no-op when the key is
already present. -/
def envInsert (m : Environment) (kv : String × String) : Environment :=
  if envContains m kv.1 then m else m ++ [kv]

/-- Range `insert`, as used in `Executor::BuildEnv`. -/
def envInsertAll (m : Environment) (l : Environment) : Environment :=
  l.foldl envInsert m

/-- Map lookup (`flat_hash_map::find`). -/
def envLookup (m : Environment) (k : String) : Option String :=
  match m with
  | [] => none
  | p :: rest => if p.1 == k then some p.2 else envLookup rest k

/-- The merged map built by `Executor::BuildEnv` before serialization:
a map is constructed from the runfiles-library variables, then the
mode-specific overrides are `insert`ed, then the captured original
environment is `insert`ed. -/
def buildEnvMap (runfilesVars overrides origEnv : Environment) : Environment :=
  envInsertAll (envInsertAll (envInsertAll [] runfilesVars) overrides) origEnv

theorem envContains_eq_isSome (m : Environment) (k : String) :
    envContains m k = (envLookup m k).isSome := by
  induction m with
  | nil => rfl
  | cons p rest ih =>
    by_cases h : p.1 == k
    · simp [envContains, envLookup, h]
    · simp only [envContains, List.any_cons, h, Bool.false_or, envLookup, if_neg h]
      exact ih

theorem envLookup_append (a b : Environment) (k : String) :
    envLookup (a ++ b) k = (envLookup a k).orElse (fun _ => envLookup b k) := by
  induction a with
  | nil => rfl
  | cons p rest ih =>
    by_cases h : p.1 == k
    · simp [envLookup, h, Option.orElse]
    · simp [envLookup, h, ih]

theorem envLookup_envInsert (m : Environment) (kv : String × String) (k : String) :
    envLookup (envInsert m kv) k =
      (envLookup m k).orElse (fun _ => if kv.1 == k then some kv.2 else none) := by
  unfold envInsert
  by_cases hc : envContains m kv.1
  · rw [if_pos hc]
    by_cases hk : kv.1 == k
    · have : envContains m k := by
        rwa [(by simpa using hk : kv.1 = k)] at hc
      rw [envContains_eq_isSome] at this
      cases hlook : envLookup m k with
      | none => rw [hlook] at this; simp at this
      | some v => simp [Option.orElse]
    · simp [hk, Option.orElse]
      cases envLookup m k <;> rfl
  · rw [if_neg hc]
    rw [envLookup_append]
    rcases kv with ⟨a, b⟩
    simp [envLookup]
theorem envLookup_envInsertAll (l : Environment) (m : Environment) (k : String) :
    envLookup (envInsertAll m l) k =
      (envLookup m k).orElse (fun _ => envLookup l k) := by
  induction l generalizing m with
  | nil =>
    simp only [envInsertAll, List.foldl_nil, envLookup]
    cases envLookup m k <;> rfl
  | cons p rest ih =>
    have step : envInsertAll m (p :: rest) = envInsertAll (envInsert m p) rest := rfl
    rw [step, ih, envLookup_envInsert]
    cases hm : envLookup m k with
    | some v => simp [Option.orElse]
    | none =>
      simp only [Option.orElse, envLookup]
      by_cases hk : p.1 == k <;> simp [hk]

/-- Applying `envLookup` to the map freshly built from a pair list is
first-match lookup on that list. -/
theorem envLookup_fromPairs (l : Environment) (k : String) :
    envLookup (envInsertAll [] l) k = envLookup l k := by
  rw [envLookup_envInsertAll]
  rfl

/-- C1 (amended): Environment merge precedence in `Executor::BuildEnv`:
because `flat_hash_map::insert` never overwrites an existing key, the merged
map assigns to each name the value from the runfiles-variable map `R` when
the name is there, otherwise the value from the override map `O`, otherwise
the value from the captured original environment `E`: runfiles variables
beat overrides, and both beat the original environment, which only fills
gaps. -/
theorem buildEnvMap_precedence (r o e : Environment) (k : String) :
    envLookup (buildEnvMap r o e) k =
      (envLookup r k).orElse
        (fun _ => (envLookup o k).orElse (fun _ => envLookup e k)) := by
  unfold buildEnvMap
  rw [envLookup_envInsertAll, envLookup_envInsertAll, envLookup_fromPairs]
  cases envLookup r k <;> cases envLookup o k <;> rfl

/-- C1 (counterexample): With runfiles vars `{A:1}`, overrides
`{A:2, B:3}` and original environment `{A:4, C:5}`, the merged map sends
`A` to `1`, not to `2`: the claimed merge result `{A:2, B:3, C:5}` is wrong
on the code, which keeps the runfiles-variable binding for `A`. -/
theorem buildEnvMap_claim_false :
    envLookup (buildEnvMap [("A", "1")] [("A", "2"), ("B", "3")]
        [("A", "4"), ("C", "5")]) "A" = some "1" ∧
      (some "1" : Option String) ≠ some "2" := by
  constructor
  · rfl
  · decide

/-! ## Manifest construction (`AddToManifest`, `WriteManifest`)

`std::abort` on an absolute path where one is forbidden is modelled as
`Option.none`; a successful construction returns `some`. -/

/-- Modelled from the spec: `IsAbsolute` lives in `elisp/file.h`, which is
not part of this core.  On POSIX a path is absolute exactly when it starts
with a slash. -/
def IsAbsolute (s : String) : Bool :=
  match s.data with
  | [] => false
  | c :: _ => c == '/'

/-- Modelled from the spec: `JoinPath` lives in `elisp/file.h`, which is not
part of this core; it joins path components with a slash separator. -/
def JoinPath (parts : List String) : String :=
  String.intercalate "/" parts

/-- Modelled from the spec: the `RUNFILES_ROOT` marker written into the
manifest's `root` field (§6, "runfiles-root-marker"); its concrete value is a
build-time constant not present in this core. -/
def RUNFILES_ROOT : String := "RUNFILES_ROOT"

/-- The `enum class Absolute` from `exec.cc`. -/
inductive Absolute where
  | kAllow
  | kForbid
deriving DecidableEq, Repr

/-- The `AddToManifest` helper: appends every file to the repeated field, aborting
(`none`) when an absolute filename appears while `kForbid` is in force. -/
def AddToManifest (files : List String) (field : List String)
    (absolute : Absolute) : Option (List String) :=
  match files with
  | [] => some field
  | f :: rest =>
    if absolute == Absolute.kForbid && IsAbsolute f then none
    else AddToManifest rest (field ++ [f]) absolute

/-- The `Manifest` protocol-buffer message, with the fields `WriteManifest`
sets. -/
structure Manifest where
  root : String
  load_path : List String
  input_files : List String
  output_files : List String
deriving DecidableEq, Repr

/-- Modelled from the spec: JSON string escaping as done by the protobuf
JSON writer (`MessageToJsonString`), which is external to this core. -/
def jsonEscapeChar (c : Char) : String :=
  if c = '"' then "\\\""
  else if c = '\\' then "\\\\"
  else if c = '\n' then "\\n"
  else if c = '\t' then "\\t"
  else if c = '\r' then "\\r"
  else String.singleton c

/-- A JSON string literal. -/
def jsonString (s : String) : String :=
  "\"" ++ String.join (s.data.map jsonEscapeChar) ++ "\""

/-- A JSON array of string literals. -/
def jsonStringArray (l : List String) : String :=
  "[" ++ String.intercalate "," (l.map jsonString) ++ "]"

/-- Modelled from the spec: `MessageToJsonString` serialization of a
`Manifest` (proto3 JSON: lowerCamelCase field names, fields at their default
value omitted, repeated fields serialized in order). -/
def manifestJson (m : Manifest) : String :=
  let fields :=
    (if m.root == "" then [] else ["\"root\":" ++ jsonString m.root]) ++
    (if m.load_path.isEmpty then []
     else ["\"loadPath\":" ++ jsonStringArray m.load_path]) ++
    (if m.input_files.isEmpty then []
     else ["\"inputFiles\":" ++ jsonStringArray m.input_files]) ++
    (if m.output_files.isEmpty then []
     else ["\"outputFiles\":" ++ jsonStringArray m.output_files])
  "\x7b" ++ String.intercalate "," fields ++ "\x7d"

/-- The `Manifest` message as `WriteManifest` fills it in: load path, then
input files (load files followed by data files), then output files. -/
def BuildManifest (load_path load_files data_files output_files : List String) :
    Option Manifest := do
  let lp ← AddToManifest load_path [] Absolute.kForbid
  let inp1 ← AddToManifest load_files [] Absolute.kForbid
  let inp ← AddToManifest data_files inp1 Absolute.kForbid
  let out ← AddToManifest output_files [] Absolute.kAllow
  some { root := RUNFILES_ROOT, load_path := lp, input_files := inp,
         output_files := out }

/-- The `WriteManifest` result: the serialized JSON document written to the manifest
file, or `none` when the absolute-path invariant aborts the program. -/
def WriteManifest (load_path load_files data_files output_files : List String) :
    Option String :=
  (BuildManifest load_path load_files data_files output_files).map manifestJson

theorem addToManifest_forbid (files : List String) (field : List String) :
    AddToManifest files field Absolute.kForbid =
      if files.all (fun f => !IsAbsolute f) then some (field ++ files)
      else none := by
  induction files generalizing field with
  | nil => simp [AddToManifest]
  | cons f rest ih =>
    by_cases h : IsAbsolute f
    · simp [AddToManifest, h]
    · have hcond : (Absolute.kForbid == Absolute.kForbid && IsAbsolute f) = false := by
        simp [h]
      rw [AddToManifest, hcond, if_neg (by simp), ih]
      simp [h]

theorem addToManifest_allow (files : List String) (field : List String) :
    AddToManifest files field Absolute.kAllow = some (field ++ files) := by
  induction files generalizing field with
  | nil => simp [AddToManifest]
  | cons f rest ih => simp [AddToManifest, ih]

/-- C2 (amended): `WriteManifest` serializes its inputs in the order
given: the manifest's input files are the load files followed by the data
files, unsorted, so the document is byte-identical across calls whose
load-path, load-file, data-file and output-file inputs are equal as
sequences; it is not invariant under permuting the data files, and this
version of the code writes no tags. -/
theorem writeManifest_in_input_order (lp lf df out : List String)
    (h : ∀ f ∈ lp ++ lf ++ df, IsAbsolute f = false) :
    WriteManifest lp lf df out =
      some (manifestJson
        { root := RUNFILES_ROOT, load_path := lp, input_files := lf ++ df,
          output_files := out }) := by
  have hlp : lp.all (fun f => !IsAbsolute f) = true := by
    rw [List.all_eq_true]; intro f hf
    simp [h f (by simp [hf])]
  have hlf : lf.all (fun f => !IsAbsolute f) = true := by
    rw [List.all_eq_true]; intro f hf
    simp [h f (by simp [hf])]
  have hdf : df.all (fun f => !IsAbsolute f) = true := by
    rw [List.all_eq_true]; intro f hf
    simp [h f (by simp [hf])]
  simp [WriteManifest, BuildManifest, addToManifest_forbid, addToManifest_allow,
        hlp, hlf, hdf]

/-- C2 (witness): a concrete all-relative call evaluates to the
serialized document with the input files in input order. -/
theorem writeManifest_in_input_order_witness :
    WriteManifest ["dir"] ["lib.elc"] ["a.txt", "b.txt"] ["/out.xml"] =
      some (manifestJson
        { root := RUNFILES_ROOT, load_path := ["dir"],
          input_files := ["lib.elc", "a.txt", "b.txt"],
          output_files := ["/out.xml"] }) :=
  writeManifest_in_input_order _ _ _ _ (by decide)

/-- C2 (counterexample): permuting the data-file input changes the
written JSON document: the inputs `["a", "b"]` and `["b", "a"]` are equal as
unordered sets, yet the two serialized manifests differ byte-wise, because
`WriteManifest` does not sort the data files. -/
theorem writeManifest_not_permutation_invariant :
    List.Perm ["a", "b"] ["b", "a"] ∧
      WriteManifest [] [] ["a", "b"] [] ≠ WriteManifest [] [] ["b", "a"] [] := by
  constructor
  · exact List.Perm.swap "b" "a" []
  · decide

/-- C3 (confirmed): the absolute-path invariant of `WriteManifest`: if
any load-path entry, load file or data file is absolute the program aborts
(`none`, a fatal `std::abort`, not a recoverable error), and when all of
them are relative the abort branch is unreachable — output files may be
absolute without triggering it. -/
theorem writeManifest_absolute_invariant (lp lf df out : List String) :
    ((∃ f ∈ lp ++ lf ++ df, IsAbsolute f = true) →
        WriteManifest lp lf df out = none) ∧
      ((∀ f ∈ lp ++ lf ++ df, IsAbsolute f = false) →
        (WriteManifest lp lf df out).isSome = true) := by
  constructor
  · rintro ⟨f, hf, habs⟩
    have hone : lp.all (fun f => !IsAbsolute f) = false ∨
        lf.all (fun f => !IsAbsolute f) = false ∨
        df.all (fun f => !IsAbsolute f) = false := by
      rw [List.mem_append, List.mem_append] at hf
      rcases hf with (hf | hf) | hf
      · refine Or.inl ?_
        cases h' : lp.all (fun f => !IsAbsolute f)
        · rfl
        · have := (List.all_eq_true.mp h') f hf
          rw [habs] at this
          exact absurd this (by decide)
      · refine Or.inr (Or.inl ?_)
        cases h' : lf.all (fun f => !IsAbsolute f)
        · rfl
        · have := (List.all_eq_true.mp h') f hf
          rw [habs] at this
          exact absurd this (by decide)
      · refine Or.inr (Or.inr ?_)
        cases h' : df.all (fun f => !IsAbsolute f)
        · rfl
        · have := (List.all_eq_true.mp h') f hf
          rw [habs] at this
          exact absurd this (by decide)
    cases hlp : lp.all (fun f => !IsAbsolute f) <;>
      cases hlf : lf.all (fun f => !IsAbsolute f) <;>
        cases hdf : df.all (fun f => !IsAbsolute f)
    all_goals
      try (simp [WriteManifest, BuildManifest, addToManifest_forbid,
                 hlp, hlf, hdf]; done)
    rcases hone with h1 | h1 | h1 <;> simp_all
  · intro h
    have hlp : lp.all (fun f => !IsAbsolute f) = true := by
      rw [List.all_eq_true]; intro f hf
      simp [h f (by simp [hf])]
    have hlf : lf.all (fun f => !IsAbsolute f) = true := by
      rw [List.all_eq_true]; intro f hf
      simp [h f (by simp [hf])]
    have hdf : df.all (fun f => !IsAbsolute f) = true := by
      rw [List.all_eq_true]; intro f hf
      simp [h f (by simp [hf])]
    simp [WriteManifest, BuildManifest, addToManifest_forbid,
          addToManifest_allow, hlp, hlf, hdf]

/-- C3 (witness): an absolute load-path entry aborts; an all-relative
input set with an absolute output file does not. -/
theorem writeManifest_absolute_invariant_witness :
    WriteManifest ["/abs/dir"] [] [] [] = none ∧
      (WriteManifest ["dir"] ["lib.elc"] ["d.txt"] ["/out.xml"]).isSome = true :=
  ⟨(writeManifest_absolute_invariant ["/abs/dir"] [] [] []).1
      ⟨"/abs/dir", by decide, by decide⟩,
    (writeManifest_absolute_invariant ["dir"] ["lib.elc"] ["d.txt"]
        ["/out.xml"]).2 (by decide)⟩

/-! ## Child termination (`Executor::Run`)

The spawn succeeds before the wait; the outcome of `waitpid` and of the
child's termination is the `WaitOutcome` parameter: `waitFailed` models
`waitpid` returning something other than the child's pid (with the errno
then in force), `exited` models `WIFEXITED`/`WEXITSTATUS`, `signaled`
models termination by a signal. -/

/-- How waiting on the spawned child can end. -/
inductive WaitOutcome where
  | waitFailed (errno : Nat)
  | exited (code : Nat)
  | signaled (sig : Nat)
deriving DecidableEq, Repr

/-- The tail of `Executor::Run`: `waitpid` failure becomes an errno-carrying
OS error; otherwise the result is `WEXITSTATUS` on a normal exit and `0xFF`
on an abnormal one. -/
def RunWait : WaitOutcome → Except ErrStatus Nat
  | .waitFailed e => .error (.osError e)
  | .exited c => .ok c
  | .signaled _ => .ok 0xFF

/-- C4 (confirmed): `Executor::Run` returns the child's exit status
verbatim on normal termination (exit status 7 yields 7), returns `0xFF`
when the child is killed by a signal, and surfaces a failure of the wait
call as an OS error rather than an exit code. -/
theorem run_wait_status :
    (∀ c, RunWait (.exited c) = .ok c) ∧
      RunWait (.exited 7) = .ok 7 ∧
      (∀ s, RunWait (.signaled s) = .ok 0xFF) ∧
      (∀ e, RunWait (.waitFailed e) = .error (.osError e)) :=
  ⟨fun _ => rfl, rfl, fun _ => rfl, fun _ => rfl⟩

/-! ## `AddManifest`

`TempFile::Create(TempDir(), "manifest-*.json", random)` is external; its
successful result is the `mkTemp` parameter applied to the name pattern.
The function returns the optional temp file together with the updated
argument list (the C++ takes `args` by reference). -/

/-- The `AddManifest` step: in `kDirect` mode no temp file and no arguments; in
`kWrap` mode a `manifest-*.json` temp file plus the `--manifest=<path>` flag
and the `--` separator appended to the argument list. -/
def AddManifest (mode : Mode) (args : List String) (mkTemp : String → String) :
    Option String × List String :=
  match mode with
  | .kDirect => (none, args)
  | .kWrap =>
    let path := mkTemp "manifest-*.json"
    (some path, args ++ ["--manifest=" ++ path, "--"])

/-- C9 (confirmed): `AddManifest` in `Direct` mode returns no temp file
and leaves the argument list unchanged; in `Wrap` mode it returns the temp
file created from the pattern `manifest-*.json` and appends exactly two
entries, `--manifest=<path of that file>` immediately followed by `--`,
changing nothing else. -/
theorem addManifest_by_mode (args : List String) (mkTemp : String → String) :
    AddManifest .kDirect args mkTemp = (none, args) ∧
      AddManifest .kWrap args mkTemp =
        (some (mkTemp "manifest-*.json"),
          args ++ ["--manifest=" ++ mkTemp "manifest-*.json", "--"]) :=
  ⟨rfl, rfl⟩

/-! ## `GetSharedDir`

`Directory::Open` is external; the directory listing is the `entries`
parameter.  The `absl::flat_hash_set` of matching entries is modelled by
deduplicating the filtered listing; the `FailedPrecondition` error carries
the candidate set that `absl::StrJoin` would name in the message. -/

/-- The version-number pattern `[0-9][.0-9]*` from `GetSharedDir`. -/
def versionDirMatch (s : String) : Bool :=
  match s.data with
  | [] => false
  | c :: rest => c.isDigit && rest.all (fun d => d == '.' || d.isDigit)

/-- The `GetSharedDir` lookup: filter the listing of `install/share/emacs` to
version-named entries; zero matches is `NotFound`, several matches is
`FailedPrecondition` naming all of them, one match yields its path. -/
def GetSharedDir (install : String) (entries : List String) :
    Except ErrStatus String :=
  let emacs := JoinPath [install, "share", "emacs"]
  let dirs := (entries.filter versionDirMatch).dedup
  if dirs.isEmpty then .error .notFound
  else if dirs.length ≠ 1 then .error (.failedPrecondition dirs)
  else .ok (JoinPath [emacs, dirs.head!])

theorem dedup_eq_singleton {l : List String} {d : String} (hne : l ≠ [])
    (hall : ∀ x ∈ l, x = d) : l.dedup = [d] := by
  induction l with
  | nil => exact absurd rfl hne
  | cons a l ih =>
    have ha : a = d := hall a (by simp)
    cases l with
    | nil => simp [ha]
    | cons b l' =>
      have hl : (b :: l').dedup = [d] :=
        ih (by simp) (fun x hx => hall x (by simp [hx]))
      have hb : b = d := hall b (by simp)
      have hmem : a ∈ b :: l' := by
        rw [ha, ← hb]
        exact List.mem_cons_self b l'
      rw [List.dedup_cons_of_mem hmem, hl]

/-- C8 (confirmed): `GetSharedDir` filters the listing of
`install/share/emacs` to the entries matching `[0-9][.0-9]*`: when no entry
matches it returns `NotFound`; when exactly one directory name matches it
returns that directory's path under `install/share/emacs`; when two
different names match it returns `FailedPrecondition` naming all candidate
directories. -/
theorem getSharedDir_cases (install : String) (entries : List String) :
    ((∀ e ∈ entries, versionDirMatch e = false) →
        GetSharedDir install entries = .error .notFound) ∧
      (∀ d, d ∈ entries → versionDirMatch d = true →
        (∀ e ∈ entries, versionDirMatch e = true → e = d) →
        GetSharedDir install entries =
          .ok (JoinPath [JoinPath [install, "share", "emacs"], d])) ∧
      (∀ d₁ d₂, d₁ ∈ entries → d₂ ∈ entries → d₁ ≠ d₂ →
        versionDirMatch d₁ = true → versionDirMatch d₂ = true →
        GetSharedDir install entries =
          .error (.failedPrecondition ((entries.filter versionDirMatch).dedup))) := by
  refine ⟨fun hnone => ?_, fun d hd hmatch huniq => ?_, ?_⟩
  · have hfil : entries.filter versionDirMatch = [] := by
      rw [List.filter_eq_nil_iff]
      intro a ha
      simp [hnone a ha]
    simp [GetSharedDir, hfil]
  · have hfilne : entries.filter versionDirMatch ≠ [] := by
      intro h
      have := List.filter_eq_nil_iff.mp h d hd
      simp [hmatch] at this
    have hfall : ∀ x ∈ entries.filter versionDirMatch, x = d := by
      intro x hx
      rcases List.mem_filter.mp hx with ⟨hxm, hxv⟩
      exact huniq x hxm hxv
    have hded : (entries.filter versionDirMatch).dedup = [d] :=
      dedup_eq_singleton hfilne hfall
    simp [GetSharedDir, hded]
  · intro d₁ d₂ hm₁ hm₂ hne hv₁ hv₂
    have h1 : d₁ ∈ (entries.filter versionDirMatch).dedup :=
      List.mem_dedup.mpr (List.mem_filter.mpr ⟨hm₁, hv₁⟩)
    have h2 : d₂ ∈ (entries.filter versionDirMatch).dedup :=
      List.mem_dedup.mpr (List.mem_filter.mpr ⟨hm₂, hv₂⟩)
    have hempty : (entries.filter versionDirMatch).dedup.isEmpty = false := by
      cases hd : (entries.filter versionDirMatch).dedup.isEmpty
      · rfl
      · rw [List.isEmpty_iff] at hd
        rw [hd] at h1
        exact absurd h1 (List.not_mem_nil d₁)
    have hlen : (entries.filter versionDirMatch).dedup.length ≠ 1 := by
      intro hlen
      rcases List.length_eq_one.mp hlen with ⟨a, ha⟩
      rw [ha] at h1 h2
      rcases List.mem_singleton.mp h1 with h1'
      rcases List.mem_singleton.mp h2 with h2'
      exact hne (h1'.trans h2'.symm)
    simp only [GetSharedDir, hempty, Bool.false_eq_true, if_false]
    rw [if_pos hlen]

/-- C8 (witness): the spec's own example: `share/emacs` containing
`27.1` and `27.2` (plus a non-matching `.git`) fails with an ambiguity
error naming both; a single match `27.1` resolves to its path. -/
theorem getSharedDir_cases_witness :
    GetSharedDir "/inst" ["27.1", "27.2", ".git"] =
        .error (.failedPrecondition ["27.1", "27.2"]) ∧
      GetSharedDir "/inst" ["27.1", ".git"] =
        .ok "/inst/share/emacs/27.1" := by
  constructor
  · have h := (getSharedDir_cases "/inst" ["27.1", "27.2", ".git"]).2.2
      "27.1" "27.2" (by decide) (by decide) (by decide) (by decide) (by decide)
    have he : (List.filter versionDirMatch ["27.1", "27.2", ".git"]).dedup =
        ["27.1", "27.2"] := by decide
    rw [h, he]
  · have h := (getSharedDir_cases "/inst" ["27.1", ".git"]).2.1
      "27.1" (by decide) (by decide) (by decide)
    have hj : JoinPath [JoinPath ["/inst", "share", "emacs"], "27.1"] =
        "/inst/share/emacs/27.1" := by decide
    rw [h, hj]

/-! ## Runfile resolution (`Executor::Runfile`) and load-path construction

`Executor::Runfile` wraps the external Bazel runfiles mapping and
`MakeAbsolute`; its outcome per logical name is the `Resolver` parameter:
`.ok` with the resolved absolute path, `.error .notFound` when the mapping
has no entry, any other `.error` when the absolute-path conversion fails. -/

/-- The outcome of `Executor::Runfile` on each logical name. -/
abbrev Resolver := String → Except ErrStatus String

/-- Corresponds to `StatusOr::ok()`. -/
def exceptIsOk : Except ErrStatus String → Bool
  | .ok _ => true
  | .error _ => false

/-- Corresponds to `absl::IsNotFound` on the resolution outcome. -/
def isNotFound : Except ErrStatus String → Bool
  | .error .notFound => true
  | _ => false

/-- The resolution of the name either succeeds or fails with `NotFound`
(no other error). -/
abbrev resOkOrNotFound (res : Resolver) (d : String) : Prop :=
  (exceptIsOk (res d) || isNotFound (res d)) = true

/-- The logical name of the runfiles handler library
(`runfiles_elc` in `Executor::AddLoadPath`). -/
def runfilesElc : String := "phst_rules_elisp/elisp/runfiles/runfiles.elc"

/-- The loop of `Executor::AddLoadPath`, with `runfile_handler_installed` as the
`installed` accumulator and the argument vector threaded through. -/
def AddLoadPathGo (res : Resolver) :
    Bool → List String → List String → Except ErrStatus (List String)
  | _, args, [] => .ok args
  | installed, args, dir :: rest =>
    match res dir with
    | .ok p => AddLoadPathGo res installed (args ++ ["--directory=" ++ p]) rest
    | .error ErrStatus.notFound =>
      if installed then
        AddLoadPathGo res true
          (args ++ ["--directory=/bazel-runfile:" ++ dir]) rest
      else
        match res runfilesElc with
        | .ok file =>
          AddLoadPathGo res true
            (args ++ ["--load=" ++ file,
                      "--funcall=elisp/runfiles/install-handler",
                      "--directory=/bazel-runfile:" ++ dir]) rest
        | .error e => .error e
    | .error e => .error e

/-- The full `Executor::AddLoadPath`: the handler starts uninstalled. -/
def AddLoadPath (res : Resolver) (args : List String)
    (load_path : List String) : Except ErrStatus (List String) :=
  AddLoadPathGo res false args load_path

/-- The load-path argument list as the spec describes it: one
`--directory=<resolved>` per directory that resolves, and for a directory
whose resolution fails `--directory=/bazel-runfile:<logical>`, preceded by
`--load=<handler>` and `--funcall=install-handler` on the first unresolved
directory only. -/
def loadPathArgsSpec (res : Resolver) (hfile : String) :
    Bool → List String → List String
  | _, [] => []
  | installed, dir :: rest =>
    match res dir with
    | .ok p => ("--directory=" ++ p) :: loadPathArgsSpec res hfile installed rest
    | .error _ =>
      if installed then
        ("--directory=/bazel-runfile:" ++ dir) ::
          loadPathArgsSpec res hfile true rest
      else
        ("--load=" ++ hfile) :: "--funcall=elisp/runfiles/install-handler" ::
          ("--directory=/bazel-runfile:" ++ dir) ::
            loadPathArgsSpec res hfile true rest

theorem append_ne_of_ne_at (p q : String) (i : Nat) (hi : i < p.data.length)
    (hne : p.data[i]? ≠ q.data[i]?) (t : String) : p ++ t ≠ q := by
  intro h
  apply hne
  have hd : p.data ++ t.data = q.data := by
    rw [← String.data_append]
    exact congrArg String.data h
  rw [← hd, List.getElem?_append_left hi]

theorem dirFlag_ne_funcall (t : String) :
    ("--directory=" ++ t) ≠ "--funcall=elisp/runfiles/install-handler" :=
  append_ne_of_ne_at _ _ 2 (by decide) (by decide) t

theorem bazelDirFlag_ne_funcall (t : String) :
    ("--directory=/bazel-runfile:" ++ t) ≠
      "--funcall=elisp/runfiles/install-handler" :=
  append_ne_of_ne_at _ _ 2 (by decide) (by decide) t

theorem loadFlag_ne_funcall (t : String) :
    ("--load=" ++ t) ≠ "--funcall=elisp/runfiles/install-handler" :=
  append_ne_of_ne_at _ _ 2 (by decide) (by decide) t

theorem resOkOrNotFound_cases {res : Resolver} {d : String}
    (h : resOkOrNotFound res d) :
    (∃ p, res d = .ok p) ∨ res d = .error .notFound := by
  unfold resOkOrNotFound at h
  cases hr : res d with
  | ok p => exact Or.inl ⟨p, rfl⟩
  | error e =>
    cases e with
    | notFound => exact Or.inr rfl
    | failedPrecondition c => rw [hr] at h; exact absurd h (by simp [exceptIsOk, isNotFound])
    | osError c => rw [hr] at h; exact absurd h (by simp [exceptIsOk, isNotFound])
    | other m => rw [hr] at h; exact absurd h (by simp [exceptIsOk, isNotFound])

theorem addLoadPathGo_ok (res : Resolver) (hfile : String)
    (hh : res runfilesElc = .ok hfile) :
    ∀ dirs installed args, (∀ d ∈ dirs, resOkOrNotFound res d) →
      AddLoadPathGo res installed args dirs =
        .ok (args ++ loadPathArgsSpec res hfile installed dirs) := by
  intro dirs
  induction dirs with
  | nil => intro installed args _; simp [AddLoadPathGo, loadPathArgsSpec]
  | cons dir rest ih =>
    intro installed args hall
    have hdir := resOkOrNotFound_cases (hall dir (by simp))
    have hrest : ∀ d ∈ rest, resOkOrNotFound res d :=
      fun d hd => hall d (by simp [hd])
    rcases hdir with ⟨p, hp⟩ | hnf
    · simp only [AddLoadPathGo, hp, loadPathArgsSpec]
      rw [ih installed (args ++ ["--directory=" ++ p]) hrest]
      simp
    · cases installed with
      | true =>
        simp only [AddLoadPathGo, hnf, loadPathArgsSpec, if_pos rfl]
        rw [ih true (args ++ ["--directory=/bazel-runfile:" ++ dir]) hrest]
        simp
      | false =>
        simp only [AddLoadPathGo, hnf, loadPathArgsSpec, Bool.false_eq_true,
                   if_false, hh]
        rw [ih true (args ++ ["--load=" ++ hfile,
              "--funcall=elisp/runfiles/install-handler",
              "--directory=/bazel-runfile:" ++ dir]) hrest]
        simp

theorem addLoadPathGo_err (res : Resolver) (hfile : String)
    (hh : res runfilesElc = .ok hfile) (d : String) (e : ErrStatus)
    (hd : res d = .error e) (hne : e ≠ ErrStatus.notFound) :
    ∀ pre post installed args, (∀ x ∈ pre, resOkOrNotFound res x) →
      AddLoadPathGo res installed args (pre ++ d :: post) = .error e := by
  intro pre
  induction pre with
  | nil =>
    intro post installed args _
    rw [List.nil_append, AddLoadPathGo, hd]
    cases e with
    | notFound => exact absurd rfl hne
    | failedPrecondition c => rfl
    | osError c => rfl
    | other m => rfl
  | cons x pre' ih =>
    intro post installed args hall
    have hx := resOkOrNotFound_cases (hall x (by simp))
    have hrest : ∀ y ∈ pre', resOkOrNotFound res y :=
      fun y hy => hall y (by simp [hy])
    rw [List.cons_append]
    rcases hx with ⟨p, hp⟩ | hnf
    · simp only [AddLoadPathGo, hp]
      exact ih post installed _ hrest
    · cases installed with
      | true =>
        simp only [AddLoadPathGo, hnf, if_pos rfl]
        exact ih post true _ hrest
      | false =>
        simp only [AddLoadPathGo, hnf, Bool.false_eq_true, if_false, hh]
        exact ih post true _ hrest

theorem loadPathArgsSpec_count (res : Resolver) (hfile : String) :
    ∀ dirs installed, (∀ d ∈ dirs, resOkOrNotFound res d) →
      (loadPathArgsSpec res hfile installed dirs).count
          "--funcall=elisp/runfiles/install-handler" =
        if installed then 0
        else if dirs.any (fun d => isNotFound (res d)) then 1 else 0 := by
  intro dirs
  induction dirs with
  | nil => intro installed _; cases installed <;> simp [loadPathArgsSpec]
  | cons dir rest ih =>
    intro installed hall
    have hdir := resOkOrNotFound_cases (hall dir (by simp))
    have hrest : ∀ d ∈ rest, resOkOrNotFound res d :=
      fun d hd => hall d (by simp [hd])
    rcases hdir with ⟨p, hp⟩ | hnf
    · have hnfd : isNotFound (res dir) = false := by rw [hp]; rfl
      simp only [loadPathArgsSpec, hp, List.count_cons, ih installed hrest]
      cases installed <;> simp [dirFlag_ne_funcall p, hnfd]
    · cases installed with
      | true =>
        simp only [loadPathArgsSpec, hnf, if_true]
        rw [List.count_cons, ih true hrest]
        simp [bazelDirFlag_ne_funcall dir]
      | false =>
        have hnfd : isNotFound (res dir) = true := by rw [hnf]; rfl
        simp only [loadPathArgsSpec, hnf, Bool.false_eq_true, if_false,
                   List.count_cons, ih true hrest]
        simp [loadFlag_ne_funcall hfile, bazelDirFlag_ne_funcall dir, hnfd]

/-- C6 (confirmed): `Executor::AddLoadPath`, assuming the handler
library itself resolves: (1) when every logical directory either resolves
or fails with `NotFound`, the arguments appended are `--directory=<resolved>`
for each directory that resolves and `--directory=/bazel-runfile:<logical>`
for each that does not, with `--load=<handler>` and
`--funcall=install-handler` inserted before the first unresolved directory
only; (2) a resolution error other than `NotFound` aborts the construction
with that error; (3) the `--funcall=install-handler` argument appears
exactly once when any directory is unresolved and never otherwise. -/
theorem addLoadPath_spec (res : Resolver) (hfile : String) (args : List String)
    (hh : res runfilesElc = .ok hfile) :
    (∀ dirs, (∀ d ∈ dirs, resOkOrNotFound res d) →
        AddLoadPath res args dirs =
          .ok (args ++ loadPathArgsSpec res hfile false dirs)) ∧
      (∀ pre d post e, (∀ x ∈ pre, resOkOrNotFound res x) →
        res d = .error e → e ≠ ErrStatus.notFound →
        AddLoadPath res args (pre ++ d :: post) = .error e) ∧
      (∀ dirs, (∀ d ∈ dirs, resOkOrNotFound res d) →
        (loadPathArgsSpec res hfile false dirs).count
            "--funcall=elisp/runfiles/install-handler" =
          if dirs.any (fun d => isNotFound (res d)) then 1 else 0) :=
  ⟨fun dirs hall => addLoadPathGo_ok res hfile hh dirs false args hall,
    fun pre d post e hall hd hne =>
      addLoadPathGo_err res hfile hh d e hd hne pre post false args hall,
    fun dirs hall => loadPathArgsSpec_count res hfile dirs false hall⟩

/-- A concrete resolver for evaluation: the handler library and `d1`
resolve, everything else is missing from the runfiles mapping. -/
def resW : Resolver := fun s =>
  if s = "phst_rules_elisp/elisp/runfiles/runfiles.elc" then
    .ok "/rf/runfiles.elc"
  else if s = "d1" then .ok "/rf/d1"
  else .error .notFound

/-- C6 (witness): with `d1` resolving and `dx`, `dy` unresolved, the
handler-install arguments appear once, before the first unresolved
directory only. -/
theorem addLoadPath_spec_witness :
    AddLoadPath resW [] ["d1", "dx", "dy"] =
      .ok ["--directory=/rf/d1", "--load=/rf/runfiles.elc",
           "--funcall=elisp/runfiles/install-handler",
           "--directory=/bazel-runfile:dx", "--directory=/bazel-runfile:dy"] := by
  have h := (addLoadPath_spec resW "/rf/runfiles.elc" [] rfl).1
      ["d1", "dx", "dy"] (by decide)
  rw [h]
  have he : loadPathArgsSpec resW "/rf/runfiles.elc" false ["d1", "dx", "dy"] =
      ["--directory=/rf/d1", "--load=/rf/runfiles.elc",
       "--funcall=elisp/runfiles/install-handler",
       "--directory=/bazel-runfile:dx", "--directory=/bazel-runfile:dy"] := by
    decide
  rw [he]
  rfl

/-! ## Binary-mode load files (`Executor::RunBinary`)

The load-file loop of `RunBinary`: each load file is resolved through the
runfiles mapping (`ASSIGN_OR_RETURN(const auto abs, this->Runfile(file))`)
purely as an existence check, and the argument appended is
`--load=<logical file>`, not the resolved path. -/

/-- The load-file loop of `Executor::RunBinary`. -/
def RunBinaryLoads (res : Resolver) :
    List String → List String → Except ErrStatus (List String)
  | args, [] => .ok args
  | args, f :: rest =>
    match res f with
    | .ok _ => RunBinaryLoads res (args ++ ["--load=" ++ f]) rest
    | .error e => .error e

/-- C10 (confirmed): `RunBinary` resolves every load file through the
runfiles mapping and fails with `NotFound` when a load file has no mapping
(all files before it resolving), yet on success the appended arguments are
`--load=<logical name>` for every file — independent of what the resolved
absolute paths were, which are computed only to validate existence. -/
theorem runBinary_load_files (res : Resolver) (args : List String) :
    (∀ files, (∀ f ∈ files, exceptIsOk (res f) = true) →
        RunBinaryLoads res args files =
          .ok (args ++ files.map (fun f => "--load=" ++ f))) ∧
      (∀ pre f post, (∀ x ∈ pre, exceptIsOk (res x) = true) →
        res f = .error .notFound →
        RunBinaryLoads res args (pre ++ f :: post) = .error .notFound) := by
  constructor
  · intro files
    induction files generalizing args with
    | nil => intro _; simp [RunBinaryLoads]
    | cons f rest ih =>
      intro hall
      have hf : exceptIsOk (res f) = true := hall f (by simp)
      cases hres : res f with
      | error e => rw [hres] at hf; exact absurd hf (by simp [exceptIsOk])
      | ok p =>
        simp only [RunBinaryLoads, hres]
        rw [ih (args ++ ["--load=" ++ f]) (fun x hx => hall x (by simp [hx]))]
        simp
  · intro pre f post
    induction pre generalizing args with
    | nil =>
      intro _ hf
      rw [List.nil_append]
      simp only [RunBinaryLoads, hf]
    | cons x pre' ih =>
      intro hall hf
      have hx : exceptIsOk (res x) = true := hall x (by simp)
      cases hres : res x with
      | error e => rw [hres] at hx; exact absurd hx (by simp [exceptIsOk])
      | ok p =>
        rw [List.cons_append]
        simp only [RunBinaryLoads, hres]
        exact ih _ (fun y hy => hall y (by simp [hy])) hf

/-- C10 (witness): `d1` resolves to `/rf/d1` yet the argument keeps
the logical name; an unmapped file fails with `NotFound`. -/
theorem runBinary_load_files_witness :
    RunBinaryLoads resW [] ["d1"] = .ok ["--load=d1"] ∧
      RunBinaryLoads resW [] ["d1", "missing"] = .error .notFound := by
  constructor
  · have h := (runBinary_load_files resW []).1 ["d1"] (by decide)
    rw [h]
    rfl
  · exact (runBinary_load_files resW []).2 ["d1"] "missing" [] (by decide) rfl

/-! ## Test-report conversion (`ConvertReport`)

The JSON parsing (`JsonStringToMessage`) and the duration/timestamp
formatting (`FloatSeconds`/`StrCat` on a double, `TimeUtil::ToString`) are
external; conversion starts from the parsed `TestReport` and the two
formatters are parameters.  The `tinyxml2::XMLPrinter` calls are modelled
as a flat stream of printer events. -/

/-- The `Status` enum of the `TestReport` proto, as far as `exec.cc`
inspects it (only the comparison with `FAILED` matters). -/
inductive TestStatus where
  | PASSED
  | FAILED
  | SKIPPED
deriving DecidableEq, Repr

/-- The `google.protobuf.Duration` message. -/
structure Duration where
  seconds : Int
  nanos : Int
deriving DecidableEq, Repr

/-- One `Test` message of the report. -/
structure Test where
  name : String
  elapsed : Duration
  expected : Bool
  status : TestStatus
  message : String
deriving DecidableEq, Repr

/-- The parsed `TestReport` message. -/
structure TestReport where
  tests : List Test
  start_time : Duration
  elapsed : Duration
deriving DecidableEq, Repr

/-- One `tinyxml2::XMLPrinter` call made by `ConvertReport`. -/
inductive XmlEvent where
  | openElement (name : String)
  | pushAttribute (key value : String)
  | pushText (text : String)
  | closeElement
deriving DecidableEq, Repr

/-- The printer calls of `ConvertReport`'s per-test loop body. -/
def testcaseEvents (fmtDur : Duration → String)
    (fmtStatus : TestStatus → String) (t : Test) : List XmlEvent :=
  [XmlEvent.openElement "testcase",
   XmlEvent.pushAttribute "name" t.name,
   XmlEvent.pushAttribute "time" (fmtDur t.elapsed)] ++
  (if !t.expected then
     [XmlEvent.openElement (if t.status == TestStatus.FAILED then "failure" else "error"),
      XmlEvent.pushAttribute "type" (fmtStatus t.status),
      XmlEvent.pushText t.message,
      XmlEvent.closeElement]
   else []) ++
  [XmlEvent.closeElement]

/-- The `ConvertReport` body after JSON parsing: the full stream of printer calls,
with the aggregate counts computed as in the source (`count_if` over the
test list, `errors = unexpected - failures`). -/
def ConvertReport (fmtDur fmtTs : Duration → String)
    (fmtStatus : TestStatus → String) (report : TestReport) : List XmlEvent :=
  let total := report.tests.length
  let unexpected := report.tests.countP (fun t => !t.expected)
  let failures :=
    report.tests.countP (fun t => !t.expected && t.status == TestStatus.FAILED)
  let errors := unexpected - failures
  [XmlEvent.openElement "testsuites",
   XmlEvent.pushAttribute "tests" (toString total),
   XmlEvent.pushAttribute "time" (fmtDur report.elapsed),
   XmlEvent.pushAttribute "failures" (toString failures),
   XmlEvent.openElement "testsuite",
   XmlEvent.pushAttribute "id" "0",
   XmlEvent.pushAttribute "tests" (toString total),
   XmlEvent.pushAttribute "time" (fmtDur report.elapsed),
   XmlEvent.pushAttribute "timestamp" (fmtTs report.start_time),
   XmlEvent.pushAttribute "failures" (toString failures),
   XmlEvent.pushAttribute "errors" (toString errors)] ++
  report.tests.flatMap (testcaseEvents fmtDur fmtStatus) ++
  [XmlEvent.closeElement, XmlEvent.closeElement]

theorem countP_split (p q : Test → Bool) (l : List Test) :
    l.countP p =
      l.countP (fun t => p t && q t) + l.countP (fun t => p t && !q t) := by
  induction l with
  | nil => rfl
  | cons t rest ih =>
    rw [List.countP_cons, List.countP_cons, List.countP_cons, ih]
    cases hp : p t <;> cases hq : q t <;> simp <;> omega

theorem count_failure_testcase (fmtDur : Duration → String)
    (fmtStatus : TestStatus → String) (t : Test) :
    (testcaseEvents fmtDur fmtStatus t).count (XmlEvent.openElement "failure") =
      if !t.expected && t.status == TestStatus.FAILED then 1 else 0 := by
  cases he : t.expected <;> cases hs : t.status <;>
    simp [testcaseEvents, he, hs, List.count_append, List.count_cons]

theorem count_error_testcase (fmtDur : Duration → String)
    (fmtStatus : TestStatus → String) (t : Test) :
    (testcaseEvents fmtDur fmtStatus t).count (XmlEvent.openElement "error") =
      if !t.expected && !(t.status == TestStatus.FAILED) then 1 else 0 := by
  cases he : t.expected <;> cases hs : t.status <;>
    simp [testcaseEvents, he, hs, List.count_append, List.count_cons]

theorem count_flatMap_testcases (fmtDur : Duration → String)
    (fmtStatus : TestStatus → String) (tests : List Test) (ev : XmlEvent)
    (g : Test → Bool)
    (h : ∀ t, (testcaseEvents fmtDur fmtStatus t).count ev =
      if g t then 1 else 0) :
    (tests.flatMap (testcaseEvents fmtDur fmtStatus)).count ev =
      tests.countP g := by
  induction tests with
  | nil => rfl
  | cons t rest ih =>
    rw [List.flatMap_cons, List.count_append, ih, h t, List.countP_cons]
    cases g t <;> simp [Nat.add_comm]

theorem infix_flatMap_of_mem (f : Test → List XmlEvent) {t : Test}
    {l : List Test} (h : t ∈ l) : (f t).IsInfix (l.flatMap f) := by
  rcases List.append_of_mem h with ⟨s, u, rfl⟩
  refine ⟨s.flatMap f, u.flatMap f, ?_⟩
  simp

/-- C7 (confirmed): the XML stream emitted by `ConvertReport` carries
on its `testsuite` element `tests` = total number of test entries,
`failures` = number of unexpected tests with status `FAILED`, and
`errors` = number of unexpected tests minus `failures`; one `failure`
element is opened per unexpected `FAILED` test and one `error` element per
other unexpected test, each carrying the test's message, while expected
tests emit neither kind of child element. -/
theorem convertReport_xml (fmtDur fmtTs : Duration → String)
    (fmtStatus : TestStatus → String) (report : TestReport) :
    (XmlEvent.pushAttribute "tests" (toString report.tests.length) ∈
        ConvertReport fmtDur fmtTs fmtStatus report) ∧
      (XmlEvent.pushAttribute "failures"
          (toString (report.tests.countP
            (fun t => !t.expected && t.status == TestStatus.FAILED))) ∈
        ConvertReport fmtDur fmtTs fmtStatus report) ∧
      (XmlEvent.pushAttribute "errors"
          (toString (report.tests.countP (fun t => !t.expected) -
            report.tests.countP
              (fun t => !t.expected && t.status == TestStatus.FAILED))) ∈
        ConvertReport fmtDur fmtTs fmtStatus report) ∧
      ((ConvertReport fmtDur fmtTs fmtStatus report).count
          (XmlEvent.openElement "failure") =
        report.tests.countP
          (fun t => !t.expected && t.status == TestStatus.FAILED)) ∧
      ((ConvertReport fmtDur fmtTs fmtStatus report).count
          (XmlEvent.openElement "error") =
        report.tests.countP (fun t => !t.expected) -
          report.tests.countP
            (fun t => !t.expected && t.status == TestStatus.FAILED)) ∧
      (∀ t ∈ report.tests, t.expected = false →
        List.IsInfix
          [XmlEvent.openElement
            (if t.status == TestStatus.FAILED then "failure" else "error"),
           XmlEvent.pushAttribute "type" (fmtStatus t.status),
           XmlEvent.pushText t.message,
           XmlEvent.closeElement]
          (ConvertReport fmtDur fmtTs fmtStatus report)) ∧
      (∀ t ∈ report.tests, t.expected = true →
        (testcaseEvents fmtDur fmtStatus t).count
            (XmlEvent.openElement "failure") = 0 ∧
          (testcaseEvents fmtDur fmtStatus t).count
            (XmlEvent.openElement "error") = 0) := by
  refine ⟨?_, ?_, ?_, ?_, ?_, ?_, ?_⟩
  · simp [ConvertReport]
  · simp [ConvertReport]
  · simp [ConvertReport]
  · rw [ConvertReport]
    rw [List.count_append, List.count_append,
        count_flatMap_testcases fmtDur fmtStatus report.tests _
          (fun t => !t.expected && t.status == TestStatus.FAILED)
          (count_failure_testcase fmtDur fmtStatus)]
    simp [List.count_cons]
  · rw [ConvertReport]
    rw [List.count_append, List.count_append,
        count_flatMap_testcases fmtDur fmtStatus report.tests _
          (fun t => !t.expected && !(t.status == TestStatus.FAILED))
          (count_error_testcase fmtDur fmtStatus)]
    have hsplit := countP_split (fun t => !t.expected)
      (fun t => t.status == TestStatus.FAILED) report.tests
    have : report.tests.countP
        (fun t => !t.expected && !(t.status == TestStatus.FAILED)) =
      report.tests.countP (fun t => !t.expected) -
        report.tests.countP
          (fun t => !t.expected && t.status == TestStatus.FAILED) := by
      omega
    rw [this]
    simp [List.count_cons]
  · intro t ht he
    have h1 : List.IsInfix
        [XmlEvent.openElement
          (if t.status == TestStatus.FAILED then "failure" else "error"),
         XmlEvent.pushAttribute "type" (fmtStatus t.status),
         XmlEvent.pushText t.message,
         XmlEvent.closeElement]
        (testcaseEvents fmtDur fmtStatus t) := by
      refine ⟨[XmlEvent.openElement "testcase",
               XmlEvent.pushAttribute "name" t.name,
               XmlEvent.pushAttribute "time" (fmtDur t.elapsed)],
              [XmlEvent.closeElement], ?_⟩
      simp [testcaseEvents, he]
    have h2 : List.IsInfix (testcaseEvents fmtDur fmtStatus t)
        (report.tests.flatMap (testcaseEvents fmtDur fmtStatus)) :=
      infix_flatMap_of_mem _ ht
    have h3 : List.IsInfix
        (report.tests.flatMap (testcaseEvents fmtDur fmtStatus))
        (ConvertReport fmtDur fmtTs fmtStatus report) := by
      rw [ConvertReport]
      exact ⟨_, [XmlEvent.closeElement, XmlEvent.closeElement], rfl⟩
    exact (h1.trans h2).trans h3
  · intro t ht he
    constructor <;> simp [testcaseEvents, he, List.count_cons, List.count_append]

/-- A trivial duration formatter for evaluation. -/
def fmtDurW : Duration → String := fun _ => "0"

/-- A trivial timestamp formatter for evaluation. -/
def fmtTsW : Duration → String := fun _ => "ts"

/-- A trivial status formatter for evaluation. -/
def fmtStatusW : TestStatus → String := fun _ => "S"

/-- An unexpected failing test for evaluation. -/
def t1W : Test :=
  { name := "a", elapsed := ⟨0, 0⟩, expected := false,
    status := TestStatus.FAILED, message := "m1" }

/-- An unexpected non-failed test for evaluation. -/
def t2W : Test :=
  { name := "b", elapsed := ⟨0, 0⟩, expected := false,
    status := TestStatus.PASSED, message := "m2" }

/-- An expected passing test for evaluation. -/
def t3W : Test :=
  { name := "c", elapsed := ⟨0, 0⟩, expected := true,
    status := TestStatus.PASSED, message := "" }

/-- The spec's example report: three tests, one unexpected failure, one
unexpected error, one expected result. -/
def reportW : TestReport :=
  { tests := [t1W, t2W, t3W], start_time := ⟨0, 0⟩, elapsed := ⟨0, 0⟩ }

/-- C7 (witness): on the example report the `testsuite` counts are
`tests=3`, `failures=1`, `errors=1`; the unexpected failure carries its
message inside a `failure` element and the expected test opens neither a
`failure` nor an `error` element. -/
theorem convertReport_xml_witness :
    XmlEvent.pushAttribute "tests" (toString (3 : Nat)) ∈
        ConvertReport fmtDurW fmtTsW fmtStatusW reportW ∧
      XmlEvent.pushAttribute "failures" (toString (1 : Nat)) ∈
        ConvertReport fmtDurW fmtTsW fmtStatusW reportW ∧
      XmlEvent.pushAttribute "errors" (toString (1 : Nat)) ∈
        ConvertReport fmtDurW fmtTsW fmtStatusW reportW ∧
      List.IsInfix
        [XmlEvent.openElement "failure", XmlEvent.pushAttribute "type" "S",
         XmlEvent.pushText "m1", XmlEvent.closeElement]
        (ConvertReport fmtDurW fmtTsW fmtStatusW reportW) ∧
      ((testcaseEvents fmtDurW fmtStatusW t3W).count
          (XmlEvent.openElement "failure") = 0 ∧
        (testcaseEvents fmtDurW fmtStatusW t3W).count
          (XmlEvent.openElement "error") = 0) := by
  have h := convertReport_xml fmtDurW fmtTsW fmtStatusW reportW
  refine ⟨h.1, ?_, ?_, ?_, h.2.2.2.2.2.2 t3W (by decide) rfl⟩
  · have := h.2.1
    simpa using this
  · have := h.2.2.1
    simpa using this
  · have := h.2.2.2.2.2.1 t1W (by decide) rfl
    simpa using this

/-! ## Test-mode argument vector (`Executor::RunTest`)

The argument list built by `RunTest` for the child process, before
`BuildArgs` wraps it with the original command line.  Temporary-file
creation is the `mkTemp` parameter (pattern → path) and the captured
environment is the `env` parameter (`Executor::EnvVar`). -/

/-- The logical name of the test runner library. -/
def runnerElc : String := "phst_rules_elisp/elisp/ert/runner.elc"

/-- The source-file loop at the end of `RunTest`: each source file is
resolved and the resolved absolute path is appended. -/
def appendResolvedSrcs (res : Resolver) :
    List String → List String → Except ErrStatus (List String)
  | args, [] => .ok args
  | args, f :: rest =>
    match res f with
    | .ok abs => appendResolvedSrcs res (args ++ [abs]) rest
    | .error e => .error e

/-- The argument vector `Executor::RunTest` builds for the child process:
manifest flags, `--quick --batch`, the load path, the runner load and
entry point, the optional report flag, then the resolved source files. -/
def RunTestArgs (res : Resolver) (env : String → String)
    (mkTemp : String → String) (wrapper : String) (mode : Mode)
    (load_path srcs : List String) : Except ErrStatus (List String) :=
  match res wrapper with
  | .error e => .error e
  | .ok _emacs =>
    let args := (AddManifest mode [] mkTemp).2 ++ ["--quick", "--batch"]
    match AddLoadPath res args load_path with
    | .error e => .error e
    | .ok args =>
      match res runnerElc with
      | .error e => .error e
      | .ok runner =>
        let args := args ++ ["--load=" ++ runner,
                             "--funcall=elisp/ert/run-batch-and-exit"]
        let args :=
          if env "XML_OUTPUT_FILE" == "" then args
          else args ++ ["--report=/:" ++ mkTemp "test-report-*.json"]
        appendResolvedSrcs res args srcs

theorem addLoadPathGo_prefix (res : Resolver) :
    ∀ dirs installed args out, AddLoadPathGo res installed args dirs = .ok out →
      ∃ extra, out = args ++ extra := by
  intro dirs
  induction dirs with
  | nil =>
    intro installed args out h
    simp only [AddLoadPathGo] at h
    cases h
    exact ⟨[], by simp⟩
  | cons dir rest ih =>
    intro installed args out h
    cases hres : res dir with
    | ok p =>
      simp only [AddLoadPathGo, hres] at h
      rcases ih installed _ out h with ⟨extra, hextra⟩
      exact ⟨("--directory=" ++ p) :: extra, by simp [hextra]⟩
    | error e =>
      cases e with
      | notFound =>
        cases installed with
        | true =>
          simp only [AddLoadPathGo, hres, if_true] at h
          rcases ih true _ out h with ⟨extra, hextra⟩
          exact ⟨("--directory=/bazel-runfile:" ++ dir) :: extra,
            by simp [hextra]⟩
        | false =>
          simp only [AddLoadPathGo, hres, Bool.false_eq_true, if_false] at h
          cases hrf : res runfilesElc with
          | ok file =>
            rw [hrf] at h
            rcases ih true _ out h with ⟨extra, hextra⟩
            exact ⟨("--load=" ++ file) ::
                "--funcall=elisp/runfiles/install-handler" ::
                ("--directory=/bazel-runfile:" ++ dir) :: extra,
              by simp [hextra]⟩
          | error e' => rw [hrf] at h; exact Except.noConfusion h
      | failedPrecondition c =>
        simp only [AddLoadPathGo, hres] at h
        exact Except.noConfusion h
      | osError c =>
        simp only [AddLoadPathGo, hres] at h
        exact Except.noConfusion h
      | other m =>
        simp only [AddLoadPathGo, hres] at h
        exact Except.noConfusion h

theorem mem_addLoadPathGo (res : Resolver) :
    ∀ dirs installed args out, AddLoadPathGo res installed args dirs = .ok out →
      ∀ x ∈ out, x ∈ args ∨ (∃ p, x = "--directory=" ++ p) ∨
        (∃ p, x = "--load=" ++ p) ∨
        x = "--funcall=elisp/runfiles/install-handler" := by
  intro dirs
  induction dirs with
  | nil =>
    intro installed args out h x hx
    simp only [AddLoadPathGo] at h
    cases h
    exact Or.inl hx
  | cons dir rest ih =>
    intro installed args out h x hx
    cases hres : res dir with
    | ok p =>
      simp only [AddLoadPathGo, hres] at h
      rcases ih installed _ out h x hx with hin | rest'
      · rcases List.mem_append.mp hin with hin | hin
        · exact Or.inl hin
        · exact Or.inr (Or.inl ⟨p, by simpa using hin⟩)
      · exact Or.inr rest'
    | error e =>
      cases e with
      | notFound =>
        cases installed with
        | true =>
          simp only [AddLoadPathGo, hres, if_true] at h
          rcases ih true _ out h x hx with hin | rest'
          · rcases List.mem_append.mp hin with hin | hin
            · exact Or.inl hin
            · refine Or.inr (Or.inl ⟨"/bazel-runfile:" ++ dir, ?_⟩)
              have hassoc : "--directory=/bazel-runfile:" ++ dir =
                  "--directory=" ++ ("/bazel-runfile:" ++ dir) := by
                rw [← String.append_assoc]
                have hlit : ("--directory=" : String) ++ "/bazel-runfile:" =
                    "--directory=/bazel-runfile:" := by decide
                rw [hlit]
              simp at hin
              rw [hin, hassoc]
          · exact Or.inr rest'
        | false =>
          simp only [AddLoadPathGo, hres, Bool.false_eq_true, if_false] at h
          cases hrf : res runfilesElc with
          | ok file =>
            rw [hrf] at h
            rcases ih true _ out h x hx with hin | rest'
            · rcases List.mem_append.mp hin with hin | hin
              · exact Or.inl hin
              · simp only [List.mem_cons, List.mem_singleton] at hin
                rcases hin with h1 | h2 | h3
                · exact Or.inr (Or.inr (Or.inl ⟨file, h1⟩))
                · exact Or.inr (Or.inr (Or.inr h2))
                · refine Or.inr (Or.inl ⟨"/bazel-runfile:" ++ dir, ?_⟩)
                  have hassoc : "--directory=/bazel-runfile:" ++ dir =
                      "--directory=" ++ ("/bazel-runfile:" ++ dir) := by
                    rw [← String.append_assoc]
                    have hlit : ("--directory=" : String) ++ "/bazel-runfile:" =
                        "--directory=/bazel-runfile:" := by decide
                    rw [hlit]
                  simp at h3
                  rw [h3, hassoc]
            · exact Or.inr rest'
          | error e' => rw [hrf] at h; exact Except.noConfusion h
      | failedPrecondition c =>
        simp only [AddLoadPathGo, hres] at h
        exact Except.noConfusion h
      | osError c =>
        simp only [AddLoadPathGo, hres] at h
        exact Except.noConfusion h
      | other m =>
        simp only [AddLoadPathGo, hres] at h
        exact Except.noConfusion h

theorem appendResolvedSrcs_prefix (res : Resolver) :
    ∀ srcs args out, appendResolvedSrcs res args srcs = .ok out →
      ∃ extra, out = args ++ extra := by
  intro srcs
  induction srcs with
  | nil =>
    intro args out h
    simp only [appendResolvedSrcs] at h
    cases h
    exact ⟨[], by simp⟩
  | cons f rest ih =>
    intro args out h
    cases hres : res f with
    | ok abs =>
      simp only [appendResolvedSrcs, hres] at h
      rcases ih _ out h with ⟨extra, hextra⟩
      exact ⟨abs :: extra, by simp [hextra]⟩
    | error e =>
      simp only [appendResolvedSrcs, hres] at h
      exact Except.noConfusion h

theorem mem_appendResolvedSrcs (res : Resolver) :
    ∀ srcs args out, appendResolvedSrcs res args srcs = .ok out →
      ∀ x ∈ out, x ∈ args ∨ ∃ f, res f = .ok x := by
  intro srcs
  induction srcs with
  | nil =>
    intro args out h x hx
    simp only [appendResolvedSrcs] at h
    cases h
    exact Or.inl hx
  | cons f rest ih =>
    intro args out h x hx
    cases hres : res f with
    | ok abs =>
      simp only [appendResolvedSrcs, hres] at h
      rcases ih _ out h x hx with hin | hf
      · rcases List.mem_append.mp hin with hin | hin
        · exact Or.inl hin
        · have hxe : x = abs := by simpa using hin
          exact Or.inr ⟨f, by rw [hxe]; exact hres⟩
      · exact Or.inr hf
    | error e =>
      simp only [appendResolvedSrcs, hres] at h
      exact Except.noConfusion h

theorem dirFlag_ne_moduleAssertions (t : String) :
    ("--directory=" ++ t) ≠ "--module-assertions" :=
  append_ne_of_ne_at _ _ 2 (by decide) (by decide) t

theorem loadFlag_ne_moduleAssertions (t : String) :
    ("--load=" ++ t) ≠ "--module-assertions" :=
  append_ne_of_ne_at _ _ 2 (by decide) (by decide) t

theorem manifestFlag_ne_moduleAssertions (t : String) :
    ("--manifest=" ++ t) ≠ "--module-assertions" :=
  append_ne_of_ne_at _ _ 3 (by decide) (by decide) t

theorem reportFlag_ne_moduleAssertions (t : String) :
    ("--report=/:" ++ t) ≠ "--module-assertions" :=
  append_ne_of_ne_at _ _ 2 (by decide) (by decide) t

theorem runTestArgs_flags_aux (res : Resolver) (mkTemp : String → String)
    (mode : Mode) (load_path srcs : List String)
    (args2 argsF out : List String) (runner : String)
    (habs : ∀ s p, res s = .ok p → IsAbsolute p = true)
    (hlp : AddLoadPath res ((AddManifest mode [] mkTemp).2 ++
        ["--quick", "--batch"]) load_path = .ok args2)
    (hF : argsF = args2 ++ ["--load=" ++ runner,
            "--funcall=elisp/ert/run-batch-and-exit"] ∨
          argsF = args2 ++ ["--load=" ++ runner,
            "--funcall=elisp/ert/run-batch-and-exit"] ++
            ["--report=/:" ++ mkTemp "test-report-*.json"])
    (hout : appendResolvedSrcs res argsF srcs = .ok out) :
    "--quick" ∈ out ∧ "--batch" ∈ out ∧ "--module-assertions" ∉ out := by
  rcases appendResolvedSrcs_prefix res srcs argsF out hout with ⟨e4, rfl⟩
  rcases addLoadPathGo_prefix res load_path false _ args2 hlp with ⟨e2, he2⟩
  have hq : "--quick" ∈ (AddManifest mode [] mkTemp).2 ++
      ["--quick", "--batch"] := by
    cases mode <;> simp [AddManifest]
  have hb : "--batch" ∈ (AddManifest mode [] mkTemp).2 ++
      ["--quick", "--batch"] := by
    cases mode <;> simp [AddManifest]
  refine ⟨?_, ?_, ?_⟩
  · rcases hF with rfl | rfl <;> subst he2 <;> simp [List.mem_append, hq]
  · rcases hF with rfl | rfl <;> subst he2 <;> simp [List.mem_append, hb]
  · intro hmem
    rcases mem_appendResolvedSrcs res srcs argsF _ hout _ hmem with hin | ⟨f, hres⟩
    · have hargs2 : ∀ x, x ∈ args2 → x ≠ "--module-assertions" := by
        intro x hx
        rcases mem_addLoadPathGo res load_path false _ args2 hlp x hx with
          hx1 | ⟨p, rfl⟩ | ⟨p, rfl⟩ | rfl
        · rcases List.mem_append.mp hx1 with hx2 | hx2
          · cases mode with
            | kDirect => simp [AddManifest] at hx2
            | kWrap =>
              simp [AddManifest] at hx2
              rcases hx2 with rfl | rfl
              · exact manifestFlag_ne_moduleAssertions _
              · decide
          · rcases (by simpa using hx2 : x = "--quick" ∨ x = "--batch") with
              rfl | rfl <;> decide
        · exact dirFlag_ne_moduleAssertions p
        · exact loadFlag_ne_moduleAssertions p
        · decide
      rcases hF with rfl | rfl
      · rcases List.mem_append.mp hin with hx | hx
        · exact hargs2 _ hx rfl
        · rcases (by simpa using hx :
            "--module-assertions" = "--load=" ++ runner ∨
              "--module-assertions" =
                "--funcall=elisp/ert/run-batch-and-exit") with h1 | h1
          · exact loadFlag_ne_moduleAssertions runner h1.symm
          · exact absurd h1 (by decide)
      · rcases List.mem_append.mp hin with hx | hx
        · rcases List.mem_append.mp hx with hy | hy
          · exact hargs2 _ hy rfl
          · rcases (by simpa using hy :
              "--module-assertions" = "--load=" ++ runner ∨
                "--module-assertions" =
                  "--funcall=elisp/ert/run-batch-and-exit") with h1 | h1
            · exact loadFlag_ne_moduleAssertions runner h1.symm
            · exact absurd h1 (by decide)
        · have h1 : "--module-assertions" =
              "--report=/:" ++ mkTemp "test-report-*.json" := by simpa using hx
          exact reportFlag_ne_moduleAssertions _ h1.symm
    · have := habs f _ hres
      exact absurd this (by decide)

/-- C5 (amended): the test-mode argument vector built by
`Executor::RunTest` contains `--quick` and `--batch`, but no
`--module-assertions` flag is appended in any mode (assuming, as
`MakeAbsolute` guarantees, that every resolved runfile path is absolute):
this version of the code never passes `--module-assertions`. -/
theorem runTest_argv_flags (res : Resolver) (env : String → String)
    (mkTemp : String → String) (wrapper : String) (mode : Mode)
    (load_path srcs : List String) (out : List String)
    (habs : ∀ s p, res s = .ok p → IsAbsolute p = true)
    (hout : RunTestArgs res env mkTemp wrapper mode load_path srcs = .ok out) :
    "--quick" ∈ out ∧ "--batch" ∈ out ∧ "--module-assertions" ∉ out := by
  cases hw : res wrapper with
  | error e =>
    simp only [RunTestArgs, hw] at hout
    exact Except.noConfusion hout
  | ok emacs =>
    simp only [RunTestArgs, hw] at hout
    cases hlp : AddLoadPath res ((AddManifest mode [] mkTemp).2 ++
        ["--quick", "--batch"]) load_path with
    | error e =>
      simp only [hlp] at hout
      exact Except.noConfusion hout
    | ok args2 =>
      simp only [hlp] at hout
      cases hrun : res runnerElc with
      | error e =>
        simp only [hrun] at hout
        exact Except.noConfusion hout
      | ok runner =>
        simp only [hrun] at hout
        cases hxml : env "XML_OUTPUT_FILE" == "" with
        | true =>
          rw [if_pos (by simp [hxml])] at hout
          exact runTestArgs_flags_aux res mkTemp mode load_path srcs args2 _
            out runner habs hlp (Or.inl rfl) hout
        | false =>
          rw [if_neg (by simp [hxml])] at hout
          exact runTestArgs_flags_aux res mkTemp mode load_path srcs args2 _
            out runner habs hlp (Or.inr rfl) hout

/-- A concrete resolver for the test-mode argument vector: the runner, the
wrapper and one source file resolve. -/
def resT : Resolver := fun s =>
  if s = "phst_rules_elisp/elisp/ert/runner.elc" then .ok "/rf/runner.elc"
  else if s = "wrap" then .ok "/rf/wrap"
  else if s = "t.el" then .ok "/rf/t.el"
  else .error .notFound

theorem resT_abs : ∀ s p, resT s = .ok p → IsAbsolute p = true := by
  intro s p h
  unfold resT at h
  split at h
  · cases h; decide
  · split at h
    · cases h; decide
    · split at h
      · cases h; decide
      · exact Except.noConfusion h

/-- C5 (counterexample): a concrete test-mode invocation: the built
argument vector contains `--quick` and `--batch` but no
`--module-assertions`, so the claim that the test-mode argv additionally
contains `--module-assertions` is false on this code. -/
theorem runTest_no_module_assertions :
    RunTestArgs resT (fun _ => "") (fun p => "/tmp/" ++ p) "wrap" Mode.kDirect
        [] ["t.el"] =
      .ok ["--quick", "--batch", "--load=/rf/runner.elc",
           "--funcall=elisp/ert/run-batch-and-exit", "/rf/t.el"] ∧
      "--module-assertions" ∉
        (["--quick", "--batch", "--load=/rf/runner.elc",
          "--funcall=elisp/ert/run-batch-and-exit", "/rf/t.el"] : List String) := by
  constructor
  · rfl
  · decide

/-- C5 (witness): the amended statement applied at a concrete
test-mode invocation. -/
theorem runTest_argv_flags_witness :
    "--quick" ∈ (["--quick", "--batch", "--load=/rf/runner.elc",
        "--funcall=elisp/ert/run-batch-and-exit", "/rf/t.el"] : List String) ∧
      "--batch" ∈ (["--quick", "--batch", "--load=/rf/runner.elc",
        "--funcall=elisp/ert/run-batch-and-exit", "/rf/t.el"] : List String) ∧
      "--module-assertions" ∉
        (["--quick", "--batch", "--load=/rf/runner.elc",
          "--funcall=elisp/ert/run-batch-and-exit", "/rf/t.el"] : List String) :=
  runTest_argv_flags resT (fun _ => "") (fun p => "/tmp/" ++ p) "wrap"
    Mode.kDirect [] ["t.el"] _ resT_abs rfl

end PhstRulesElisp
